import Mathlib

/-!
# CipherDrive: verification of the share-link and quota subsystem

Shallow embedding of the CipherDrive share-link / quota core. The repository
ships the database schema (src/db/init.sql) and the React client
(src/frontend/src/utils/api.js); the FastAPI backend business logic is not in
the supplied sources, so the Quota Ledger, Share Registry and File Store
operations are modelled from the design spec, while the housekeeping sweep,
the client interceptor and the client utility functions are embedded from the
source files directly.
-/

namespace CipherDrive

/-! ## Quota Ledger -/

/-- Per-user quota row: ceiling and running total, in bytes
(users.quota_gb / users.used_storage_bytes in src/db/init.sql). -/
structure QuotaState where
  quota_bytes : Nat
  used_bytes : Nat
deriving DecidableEq

/-- The Quota Ledger error taxonomy relevant to `reserve`. -/
inductive QuotaError
  | QuotaExceeded
deriving DecidableEq

/-- Modelled from the spec: Quota Ledger `reserve(user_id, delta_bytes)`
(the backend router code is absent from src/). Fails with `QuotaExceeded`
when `used_bytes + delta_bytes > quota_bytes`, performing no mutation on
failure; on success adds `delta_bytes` to `used_bytes` atomically. -/
def reserve (s : QuotaState) (delta : Nat) : Option QuotaError × QuotaState :=
  if s.quota_bytes < s.used_bytes + delta then
    (some QuotaError.QuotaExceeded, s)
  else
    (none, { s with used_bytes := s.used_bytes + delta })

/-- Modelled from the spec: Quota Ledger `release(user_id, delta_bytes)`
(the backend router code is absent from src/). Always succeeds, clamping
`used_bytes` at a floor of 0 (natural subtraction). -/
def release (s : QuotaState) (delta : Nat) : QuotaState :=
  { s with used_bytes := s.used_bytes - delta }

/-! ## Share Registry -/

/-- The sharestatus enum of src/db/init.sql. -/
inductive ShareStatus
  | active
  | expired
  | disabled
deriving DecidableEq

/-- A row of the shared_links table (src/db/init.sql), restricted to the
fields the redemption state machine reads: expiry timestamp, download limit
and counter, password hash, status. Timestamps are modelled as naturals. -/
structure ShareLink where
  expires_at : Option Nat
  max_downloads : Option Nat
  current_downloads : Nat
  password_hash : Option String
  status : ShareStatus
deriving DecidableEq

/-- The redemption error taxonomy of the spec. -/
inductive RedeemError
  | NotFound
  | Expired
  | DownloadLimitReached
  | WrongPassword
  | Disabled
deriving DecidableEq

/-- Result of a redemption attempt: `none` means success (file handle
granted), together with the post-state of the link row. -/
structure RedeemOutcome where
  result : Option RedeemError
  link : ShareLink
deriving DecidableEq

/-- Whether the link's expiry timestamp is strictly in the past
(`expires_at < NOW()`, as in cleanup_expired_shares of src/db/init.sql). -/
def pastDue (now : Nat) (l : ShareLink) : Bool :=
  match l.expires_at with
  | some t => t < now
  | none => false

/-- Whether the download limit is exhausted:
`max_downloads` set and `current_downloads >= max_downloads`. -/
def limitReached (l : ShareLink) : Bool :=
  match l.max_downloads with
  | some m => m ≤ l.current_downloads
  | none => false

/-- Whether the supplied password passes the link's password gate: links
without `password_hash` accept anything; protected links require a supplied
password whose hash matches. The hash function is a parameter. -/
def passwordOk (hash : String → String) (pw : Option String) (l : ShareLink) : Bool :=
  match l.password_hash with
  | none => true
  | some h =>
    match pw with
    | none => false
    | some p => hash p == h

/-- Modelled from the spec: Share Registry `redeem(token, password?)`
(the backend router code is absent from src/). State machine per link:
expired/disabled are terminal errors without mutation; an active link is
checked in order expiry, download limit, password; a past-due link flips to
expired; a successful redemption increments `current_downloads` atomically. -/
def redeem (hash : String → String) (now : Nat) (l : ShareLink) (pw : Option String) :
    RedeemOutcome :=
  match l.status with
  | ShareStatus.expired => ⟨some RedeemError.Expired, l⟩
  | ShareStatus.disabled => ⟨some RedeemError.Disabled, l⟩
  | ShareStatus.active =>
    if pastDue now l then
      ⟨some RedeemError.Expired, { l with status := ShareStatus.expired }⟩
    else if limitReached l then
      ⟨some RedeemError.DownloadLimitReached, l⟩
    else if !passwordOk hash pw l then
      ⟨some RedeemError.WrongPassword, l⟩
    else
      ⟨none, { l with current_downloads := l.current_downloads + 1 }⟩

/-- Modelled from the spec: owner/admin `disable(share_id)` (the backend
router code is absent from src/): active links become disabled; already
disabled links are left alone (idempotent); the monotonic-status invariant
forbids touching expired links. -/
def disable (l : ShareLink) : ShareLink :=
  if l.status == ShareStatus.active then { l with status := ShareStatus.disabled } else l

/-- One row of the UPDATE performed by cleanup_expired_shares in
src/db/init.sql: `SET status = 'expired' WHERE expires_at < NOW() AND
status = 'active'`. -/
def sweepLink (now : Nat) (l : ShareLink) : ShareLink :=
  if l.status == ShareStatus.active && pastDue now l then
    { l with status := ShareStatus.expired }
  else l

/-- The housekeeping sweep cleanup_expired_shares of src/db/init.sql,
applied to the whole shares table. -/
def cleanup_expired_shares (now : Nat) (links : List ShareLink) : List ShareLink :=
  links.map (sweepLink now)

/-- Row count returned by cleanup_expired_shares (GET DIAGNOSTICS ROW_COUNT
in src/db/init.sql): the number of rows matching the WHERE clause. -/
def cleanup_expired_shares_count (now : Nat) (links : List ShareLink) : Nat :=
  (links.filter (fun l => l.status == ShareStatus.active && pastDue now l)).length

/-- The link state a single redemption attempt leaves behind. -/
def redeemStep (hash : String → String) (now : Nat) (pw : Option String)
    (l : ShareLink) : ShareLink :=
  (redeem hash now l pw).link

/-- A freshly created share with `max_downloads = N`: counter at 0, active,
no expiry, no password. -/
def freshShare (N : Nat) : ShareLink :=
  ⟨none, some N, 0, none, ShareStatus.active⟩

/-- The invariant `current_downloads <= max_downloads` when the limit is set. -/
def downloadInvariant (l : ShareLink) : Prop :=
  match l.max_downloads with
  | some m => l.current_downloads ≤ m
  | none => True

/-! ## Basic lemmas on the redemption state machine -/

theorem redeem_freshShare_iterate (hash : String → String) (now : Nat) (N k : Nat)
    (hk : k ≤ N) :
    (redeemStep hash now none)^[k] (freshShare N) =
      ⟨none, some N, k, none, ShareStatus.active⟩ := by
  induction k with
  | zero => rfl
  | succ n ih =>
    have hn : n ≤ N := Nat.le_of_succ_le hk
    rw [Function.iterate_succ_apply', ih hn]
    have hlt : n < N := hk
    simp [redeemStep, redeem, pastDue, limitReached, passwordOk, Nat.not_le.mpr hlt]

theorem redeem_preserves_downloadInvariant (hash : String → String) (now : Nat)
    (l : ShareLink) (pw : Option String) (h : downloadInvariant l) :
    downloadInvariant (redeem hash now l pw).link := by
  obtain ⟨e, mx, c, p, st⟩ := l
  cases st <;> cases mx <;>
    simp_all [redeem, downloadInvariant, limitReached] <;>
    split_ifs <;> simp_all [downloadInvariant]
  all_goals omega

theorem disable_preserves_downloadInvariant (l : ShareLink)
    (h : downloadInvariant l) : downloadInvariant (disable l) := by
  obtain ⟨e, mx, c, p, st⟩ := l
  cases mx <;> simp_all [disable, downloadInvariant] <;>
    split_ifs <;> simp_all [downloadInvariant]

theorem sweep_preserves_downloadInvariant (now : Nat) (l : ShareLink)
    (h : downloadInvariant l) : downloadInvariant (sweepLink now l) := by
  obtain ⟨e, mx, c, p, st⟩ := l
  cases mx <;> simp_all [sweepLink, downloadInvariant] <;>
    split_ifs <;> simp_all [downloadInvariant]

end CipherDrive

namespace CipherDrive

/-- C1: `reserve` fails with `QuotaExceeded` exactly when
`used_bytes + delta_bytes > quota_bytes`, leaves `used_bytes` unchanged on
failure, and the spec scenario holds: quota 1000, used 800, a 150-byte
upload succeeds (used becomes 950), a further 100-byte upload fails with
`QuotaExceeded` with used staying 950, and releasing 950 bytes returns
used to 0. -/
theorem reserve_quota_exceeded (s : QuotaState) (delta : Nat) :
    ((reserve s delta).1 = some QuotaError.QuotaExceeded ↔
      s.quota_bytes < s.used_bytes + delta)
    ∧ ((reserve s delta).1 = some QuotaError.QuotaExceeded →
      (reserve s delta).2 = s)
    ∧ ((reserve s delta).1 = none →
      (reserve s delta).2.used_bytes = s.used_bytes + delta)
    ∧ reserve ⟨1000, 800⟩ 150 = (none, ⟨1000, 950⟩)
    ∧ reserve ⟨1000, 950⟩ 100 = (some QuotaError.QuotaExceeded, ⟨1000, 950⟩)
    ∧ release ⟨1000, 950⟩ 950 = ⟨1000, 0⟩ := by
  refine ⟨?_, ?_, ?_, by decide, by decide, by decide⟩
  · unfold reserve
    split
    · simpa using by assumption
    · simpa using by omega
  · unfold reserve
    split
    · simp
    · simp
  · unfold reserve
    split
    · simp
    · simp

/-- Closed instance of reserve_quota_exceeded with its hypotheses
discharged at quota 10, used 8, delta 3. -/
theorem reserve_quota_exceeded_witness :
    (reserve ⟨10, 8⟩ 3).2 = ⟨10, 8⟩ :=
  (reserve_quota_exceeded ⟨10, 8⟩ 3).2.1 (by decide)

end CipherDrive

namespace CipherDrive

/-- C2: a share created with `max_downloads = N` (counter starting at 0) can
be redeemed successfully exactly N times: each of the first N attempts
succeeds, the (N+1)th attempt fails with `DownloadLimitReached`, and the
invariant `current_downloads <= max_downloads` is preserved by every
operation (redeem, disable, housekeeping sweep). -/
theorem share_redeemed_exactly_N_times (hash : String → String) (now N : Nat) :
    (∀ k, k < N →
      (redeem hash now ((redeemStep hash now none)^[k] (freshShare N)) none).result = none)
    ∧ (redeem hash now ((redeemStep hash now none)^[N] (freshShare N)) none).result =
        some RedeemError.DownloadLimitReached
    ∧ (∀ l : ShareLink, ∀ pw : Option String, downloadInvariant l →
        downloadInvariant (redeem hash now l pw).link
        ∧ downloadInvariant (disable l)
        ∧ downloadInvariant (sweepLink now l)) := by
  refine ⟨?_, ?_, ?_⟩
  · intro k hk
    rw [redeem_freshShare_iterate hash now N k (Nat.le_of_lt hk)]
    simp [redeem, pastDue, limitReached, passwordOk, Nat.not_le.mpr hk]
  · rw [redeem_freshShare_iterate hash now N N (le_refl N)]
    simp [redeem, pastDue, limitReached, passwordOk]
  · intro l pw h
    exact ⟨redeem_preserves_downloadInvariant hash now l pw h,
      disable_preserves_downloadInvariant l h,
      sweep_preserves_downloadInvariant now l h⟩

/-- Closed instance of share_redeemed_exactly_N_times at N = 2: the second
attempt succeeds, the third hits the limit, and a fresh share satisfies the
invariant after one redemption. -/
theorem share_redeemed_exactly_N_times_witness :
    (redeem id 0 ((redeemStep id 0 none)^[1] (freshShare 2)) none).result = none
    ∧ (redeem id 0 ((redeemStep id 0 none)^[2] (freshShare 2)) none).result =
        some RedeemError.DownloadLimitReached
    ∧ downloadInvariant (redeem id 0 (freshShare 2) none).link :=
  ⟨(share_redeemed_exactly_N_times id 0 2).1 1 (by decide),
   (share_redeemed_exactly_N_times id 0 2).2.1,
   ((share_redeemed_exactly_N_times id 0 2).2.2 (freshShare 2) none (Nat.zero_le 2)).1⟩

/-- C3: the limit check and the counter increment form one atomic
compare-and-increment, so any concurrent execution of two redemptions
serializes into two sequential atomic redemptions; for a link with exactly
one remaining download slot, the first serialized redemption succeeds and
the second fails with `DownloadLimitReached` — never both succeed. -/
theorem concurrent_redeem_one_success (hash : String → String) (now : Nat)
    (l : ShareLink) (pw1 pw2 : Option String) (m : Nat)
    (hstatus : l.status = ShareStatus.active)
    (hexp : pastDue now l = false)
    (hpw : l.password_hash = none)
    (hmax : l.max_downloads = some m)
    (hslot : l.current_downloads + 1 = m) :
    (redeem hash now l pw1).result = none
    ∧ (redeem hash now (redeem hash now l pw1).link pw2).result =
        some RedeemError.DownloadLimitReached := by
  obtain ⟨e, mx, c, p, st⟩ := l
  simp only at hstatus hpw hmax hslot
  subst hstatus hpw hmax
  have hlim : limitReached ⟨e, some m, c, none, ShareStatus.active⟩ = false := by
    simp [limitReached]; omega
  have hexp2 : pastDue now ⟨e, some m, c + 1, none, ShareStatus.active⟩ = false := by
    simpa [pastDue] using hexp
  have hlim2 : limitReached ⟨e, some m, c + 1, none, ShareStatus.active⟩ = true := by
    simp [limitReached]; omega
  constructor
  · simp [redeem, hexp, hlim, passwordOk]
  · simp [redeem, hexp, hlim, passwordOk, hexp2, hlim2]

/-- Closed instance of concurrent_redeem_one_success: a fresh share with
`max_downloads = 1`, two redemption requests serialized in either order
(both requests are identical), exactly one succeeds. -/
theorem concurrent_redeem_one_success_witness :
    (redeem id 0 (freshShare 1) none).result = none
    ∧ (redeem id 0 (redeem id 0 (freshShare 1) none).link none).result =
        some RedeemError.DownloadLimitReached :=
  concurrent_redeem_one_success id 0 (freshShare 1) none none 1 rfl rfl rfl rfl rfl

/-- C4: redeeming an active link whose `expires_at` is strictly in the past
returns `Expired` and flips the status to expired, for every remaining
download count, limit and password configuration — the expiry check
precedes the download-limit and password checks. -/
theorem expired_redeem_returns_expired (hash : String → String) (now : Nat)
    (l : ShareLink) (pw : Option String) (t : Nat)
    (hstatus : l.status = ShareStatus.active)
    (ht : l.expires_at = some t) (hpast : t < now) :
    redeem hash now l pw =
      ⟨some RedeemError.Expired, { l with status := ShareStatus.expired }⟩ := by
  obtain ⟨e, mx, c, p, st⟩ := l
  simp only at hstatus ht
  subst hstatus ht
  simp [redeem, pastDue, hpast]

/-- Closed instance of expired_redeem_returns_expired: a link expired at
time 0, redeemed at time 1 with unused download budget and a wrong
password, still returns Expired. -/
theorem expired_redeem_returns_expired_witness :
    redeem id 1 ⟨some 0, some 5, 0, some "h", ShareStatus.active⟩ none =
      ⟨some RedeemError.Expired, ⟨some 0, some 5, 0, some "h", ShareStatus.expired⟩⟩ :=
  expired_redeem_returns_expired id 1 ⟨some 0, some 5, 0, some "h", ShareStatus.active⟩
    none 0 rfl rfl (by decide)

/-- C5 counterexample: an active password-protected link whose expiry is in
the past; redemption with a missing password returns Expired, not
WrongPassword, and mutates the link (status flips to expired) — refuting
the claim as stated for every password-protected link. -/
theorem wrong_password_claim_counterexample :
    (redeem id 1 ⟨some 0, none, 0, some "h", ShareStatus.active⟩ none).result ≠
      some RedeemError.WrongPassword
    ∧ (redeem id 1 ⟨some 0, none, 0, some "h", ShareStatus.active⟩ none).link ≠
      ⟨some 0, none, 0, some "h", ShareStatus.active⟩ := by
  constructor
  · decide
  · decide

/-- C5 (amended): for every password-protected link that is active, not
past-due and under its download limit, a redemption attempt with a missing
or mismatched password returns WrongPassword and leaves the link row
entirely unchanged (no counter increment, no status change). -/
theorem wrong_password_no_state_change (hash : String → String) (now : Nat)
    (l : ShareLink) (pw : Option String) (hsh : String)
    (hstatus : l.status = ShareStatus.active)
    (hexp : pastDue now l = false)
    (hlim : limitReached l = false)
    (hpwd : l.password_hash = some hsh)
    (hmismatch : pw = none ∨ ∀ p, pw = some p → hash p ≠ hsh) :
    redeem hash now l pw = ⟨some RedeemError.WrongPassword, l⟩ := by
  have hok : passwordOk hash pw l = false := by
    unfold passwordOk
    rw [hpwd]
    cases pw with
    | none => rfl
    | some p =>
      rcases hmismatch with hnone | hmis
      · exact absurd hnone (by simp)
      · simp [hmis p rfl]
  obtain ⟨e, mx, c, pp, st⟩ := l
  simp only at hstatus
  subst hstatus
  simp [redeem, hexp, hlim, hok]

/-- Closed instance of wrong_password_no_state_change: an unexpired,
unlimited link protected with hash "secret" (hash modelled as the identity
for the instance), redeemed with password "wrong": WrongPassword, link
unchanged. -/
theorem wrong_password_no_state_change_witness :
    redeem id 0 ⟨none, none, 0, some "secret", ShareStatus.active⟩ (some "wrong") =
      ⟨some RedeemError.WrongPassword, ⟨none, none, 0, some "secret", ShareStatus.active⟩⟩ :=
  wrong_password_no_state_change id 0 ⟨none, none, 0, some "secret", ShareStatus.active⟩
    (some "wrong") "secret" rfl rfl rfl rfl
    (Or.inr (by intro p hp hcontra; cases hp; exact absurd hcontra (by decide)))

end CipherDrive

namespace CipherDrive

/-! ## File Store -/

/-- A row of the files table (src/db/init.sql): id, owner, size in bytes,
folder flag, parent folder. -/
structure FileRow where
  id : Nat
  owner_id : Nat
  size_bytes : Nat
  is_folder : Bool
  parent_folder_id : Option Nat
deriving DecidableEq

/-- The durable store: the files table together with per-user quota ceiling
and running `used_bytes` total. -/
structure StoreState where
  files : List FileRow
  quota : Nat → Nat
  used : Nat → Nat

/-- A client mutation against the File Store. -/
inductive FileOp
  | upload (owner : Nat) (fid : Nat) (parent : Option Nat) (size : Nat)
  | mkdir (owner : Nat) (fid : Nat) (parent : Option Nat)
  | delete (actor : Nat) (fid : Nat)

/-- Ids of files whose parent lies in `ids`. -/
def childIds (files : List FileRow) (ids : List Nat) : List Nat :=
  (files.filter (fun f =>
    match f.parent_folder_id with
    | some p => ids.contains p
    | none => false)).map (fun f => f.id)

/-- Iterative descendant walk bounded by a fuel limit, as the spec's design
note prescribes for the self-referential file tree. -/
def descendantsAux (files : List FileRow) : Nat → List Nat → List Nat
  | 0, acc => acc
  | fuel + 1, acc =>
    let next := (childIds files acc).filter (fun i => !acc.contains i)
    if next.isEmpty then acc else descendantsAux files fuel (acc ++ next)

/-- The set of ids removed by deleting `fid`: the file itself and all its
descendants (fuel bounded by the table size). -/
def deleteSet (files : List FileRow) (fid : Nat) : List Nat :=
  descendantsAux files files.length [fid]

/-- Bytes released to user `u` when the rows with ids in `ids` are removed:
the sizes of the non-folder rows among them owned by `u`. -/
def releasedBytes (u : Nat) (files : List FileRow) (ids : List Nat) : Nat :=
  ((files.filter (fun f => ids.contains f.id && f.owner_id == u && !f.is_folder)).map
    (fun f => f.size_bytes)).sum

/-- Modelled from the spec: File Store `upload` / folder creation / `delete`
(the backend router code is absent from src/). `upload` reserves quota
before persisting and performs no mutation on `QuotaExceeded`; folder rows
have size 0 and never touch quota; `delete` requires the actor to be owner
or admin, removes the file and all its descendants in one transaction, and
releases the removed non-folder bytes per owner (clamped at 0). -/
def applyOp (admins : Nat → Bool) (s : StoreState) : FileOp → StoreState
  | FileOp.upload owner fid parent size =>
    if s.quota owner < s.used owner + size then s
    else
      { s with
        files := ⟨fid, owner, size, false, parent⟩ :: s.files,
        used := fun u => if u = owner then s.used u + size else s.used u }
  | FileOp.mkdir owner fid parent =>
    { s with files := ⟨fid, owner, 0, true, parent⟩ :: s.files }
  | FileOp.delete actor fid =>
    match s.files.find? (fun f => f.id == fid) with
    | none => s
    | some f =>
      if actor = f.owner_id ∨ admins actor = true then
        let ids := deleteSet s.files fid
        { s with
          files := s.files.filter (fun g => !ids.contains g.id),
          used := fun u => s.used u - releasedBytes u s.files ids }
      else s

/-- Run a sequence of mutations from an empty store with the given quota
ceilings and admin set. -/
def runOps (admins : Nat → Bool) (quota : Nat → Nat) (ops : List FileOp) : StoreState :=
  ops.foldl (applyOp admins) ⟨[], quota, fun _ => 0⟩

/-- Sum of `size_bytes` over user `u`'s non-folder rows currently stored. -/
def ownedBytes (u : Nat) (files : List FileRow) : Nat :=
  ((files.filter (fun f => f.owner_id == u && !f.is_folder)).map
    (fun f => f.size_bytes)).sum

/-- The quota-accounting invariant: every user's `used_bytes` equals the sum
of sizes of that user's non-folder rows. -/
def storeInvariant (s : StoreState) : Prop :=
  ∀ u, s.used u = ownedBytes u s.files

theorem ownedBytes_partition (u : Nat) (ids : List Nat) (files : List FileRow) :
    ownedBytes u files =
      releasedBytes u files ids +
        ownedBytes u (files.filter (fun g => !ids.contains g.id)) := by
  induction files with
  | nil => rfl
  | cons f fs ih =>
    by_cases hm : f.id ∈ ids <;> by_cases ho : f.owner_id = u <;>
      by_cases hf : f.is_folder = true <;>
      simp [ownedBytes, releasedBytes, List.filter_cons, hm, ho, hf] at ih ⊢ <;>
      omega

theorem applyOp_preserves_storeInvariant (admins : Nat → Bool) (s : StoreState)
    (op : FileOp) (h : storeInvariant s) : storeInvariant (applyOp admins s op) := by
  cases op with
  | upload owner fid parent size =>
    simp only [applyOp]
    split
    · exact h
    · intro v
      by_cases hv : v = owner
      · subst hv
        dsimp only
        rw [if_pos rfl]
        have hrow : ownedBytes v (⟨fid, v, size, false, parent⟩ :: s.files) =
            size + ownedBytes v s.files := by
          simp [ownedBytes, List.filter_cons]
        rw [hrow, h v]
        omega
      · have hv2 : ¬owner = v := fun hh => hv hh.symm
        simp [ownedBytes, List.filter_cons, hv, hv2, h v]
  | mkdir owner fid parent =>
    intro v
    simp [applyOp, ownedBytes, List.filter_cons, h v]
  | delete actor fid =>
    simp only [applyOp]
    split
    · exact h
    · split
      · intro v
        dsimp only
        rw [h v, ownedBytes_partition v (deleteSet s.files fid) s.files]
        omega
      · exact h

/-- C6: for every admin set, quota assignment, and sequence of committed
uploads, folder creations and deletes starting from an empty store, every
user's `used_bytes` equals the sum of `size_bytes` over that user's
non-folder rows currently in the store (folders contribute nothing; each
non-folder row counts exactly once). -/
theorem used_bytes_matches_store (admins : Nat → Bool) (quota : Nat → Nat)
    (ops : List FileOp) (u : Nat) :
    (runOps admins quota ops).used u = ownedBytes u (runOps admins quota ops).files := by
  suffices hgen : ∀ s : StoreState, storeInvariant s →
      storeInvariant (ops.foldl (applyOp admins) s) by
    exact hgen ⟨[], quota, fun _ => 0⟩ (fun v => rfl) u
  induction ops with
  | nil => exact fun s hs => hs
  | cons op rest ih =>
    intro s hs
    exact ih (applyOp admins s op) (applyOp_preserves_storeInvariant admins s op hs)

end CipherDrive

namespace CipherDrive

/-- C7: share status transitions are monotonic: each operation (redeem,
disable, housekeeping sweep) either leaves the status unchanged or moves it
away from active, never back to active; the sweep of
cleanup_expired_shares (src/db/init.sql) flips to expired exactly the links
that are currently active with a past-due expiry, never mutates a
non-active link, and leaves a table without active links untouched. -/
theorem status_transitions_monotonic (hash : String → String) (now : Nat)
    (l : ShareLink) (pw : Option String) :
    ((redeem hash now l pw).link.status = l.status ∨ l.status = ShareStatus.active)
    ∧ ((disable l).status = l.status ∨ l.status = ShareStatus.active)
    ∧ ((sweepLink now l).status = l.status ∨ l.status = ShareStatus.active)
    ∧ (l.status ≠ ShareStatus.active → sweepLink now l = l)
    ∧ ((sweepLink now l).status = ShareStatus.expired ↔
        l.status = ShareStatus.expired ∨
          (l.status = ShareStatus.active ∧ pastDue now l = true))
    ∧ (∀ links : List ShareLink, (∀ x ∈ links, x.status ≠ ShareStatus.active) →
        cleanup_expired_shares now links = links) := by
  refine ⟨?_, ?_, ?_, ?_, ?_, ?_⟩
  · unfold redeem
    cases hst : l.status <;> simp [hst]
  · unfold disable
    cases hst : l.status <;> simp [hst]
  · unfold sweepLink
    cases hst : l.status <;> simp [hst]
  · intro hne
    unfold sweepLink
    have hfalse : (l.status == ShareStatus.active) = false := by
      cases hst : l.status <;> simp_all
    simp [hfalse]
  · unfold sweepLink
    cases hst : l.status <;> cases hpd : pastDue now l <;> simp [hst, hpd]
  · intro links
    induction links with
    | nil => intro _; rfl
    | cons x xs ih =>
      intro hall
      have hx : sweepLink now x = x := by
        have hxne := hall x (List.mem_cons_self x xs)
        unfold sweepLink
        have hfalse : (x.status == ShareStatus.active) = false := by
          cases hst : x.status <;> simp_all
        simp [hfalse]
      have hxs := ih (fun y hy => hall y (List.mem_cons_of_mem x hy))
      unfold cleanup_expired_shares at hxs ⊢
      simp [hx, hxs]

/-- Closed instance of status_transitions_monotonic: the sweep at time 5
leaves a disabled past-due link untouched. -/
theorem status_transitions_monotonic_witness :
    sweepLink 5 ⟨some 1, none, 0, none, ShareStatus.disabled⟩ =
      ⟨some 1, none, 0, none, ShareStatus.disabled⟩ :=
  (status_transitions_monotonic id 5 ⟨some 1, none, 0, none, ShareStatus.disabled⟩
    none).2.2.2.1 (by decide)

/-! ## Client utilities (src/frontend/src/utils/api.js) -/

/-- A source of randomness for token generation. -/
inductive RngSource
  | mathRandom
  | cryptoRandom
deriving DecidableEq

/-- The randomness source generateShareId draws from: its body calls
Math.random() (src/frontend/src/utils/api.js line 199), the
non-cryptographic PRNG, not a cryptographic source such as
crypto.getRandomValues. -/
def generateShareId_rng : RngSource := RngSource.mathRandom

/-- The 62-character alphabet generateShareId draws from. -/
def shareIdChars : List Char :=
  "ABCDEFGHIJKLMNOPQRSTUVWXYZabcdefghijklmnopqrstuvwxyz0123456789".toList

/-- generateShareId (src/frontend/src/utils/api.js): character i is
chars.charAt(floor(sample_i * chars.length)); the successive Math.random()
samples, reals in [0, 1), are modelled as a stream of rationals. The
call-site default for the length is 8. -/
def generateShareId (randoms : Nat → ℚ) (len : Nat) : List Char :=
  (List.range len).map (fun i =>
    shareIdChars.getD (Int.toNat ⌊randoms i * (shareIdChars.length : ℚ)⌋) 'A')

/-- C8 counterexample: the generator's randomness source is Math.random
and not a cryptographic source, refuting the claim that share tokens are
generated from cryptographically random bytes. -/
theorem generateShareId_not_crypto :
    generateShareId_rng = RngSource.mathRandom ∧
      generateShareId_rng ≠ RngSource.cryptoRandom :=
  ⟨rfl, by decide⟩

/-- C8 (amended): a generated share id is a function of the Math.random
sample stream and the requested length alone — the generator reads neither
a file id nor the current time — and every character is drawn from the
fixed 62-character alphanumeric alphabet; however the randomness source is
Math.random, a non-cryptographic PRNG, rather than a cryptographic one. -/
theorem generateShareId_spec (randoms : Nat → ℚ) (len : Nat)
    (h : ∀ i, 0 ≤ randoms i ∧ randoms i < 1) :
    (generateShareId randoms len).length = len
    ∧ (∀ c ∈ generateShareId randoms len, c ∈ shareIdChars)
    ∧ generateShareId_rng = RngSource.mathRandom := by
  refine ⟨by simp [generateShareId], ?_, rfl⟩
  intro c hc
  simp only [generateShareId, List.mem_map, List.mem_range] at hc
  obtain ⟨i, hi, rfl⟩ := hc
  have hidx : Int.toNat ⌊randoms i * (shareIdChars.length : ℚ)⌋ < shareIdChars.length := by
    have h1 := (h i).2
    have hL : (0:ℚ) < (shareIdChars.length : ℚ) := by norm_num [shareIdChars]
    have hub : randoms i * (shareIdChars.length : ℚ) < (shareIdChars.length : ℚ) := by
      calc randoms i * (shareIdChars.length : ℚ)
          < 1 * (shareIdChars.length : ℚ) := mul_lt_mul_of_pos_right h1 hL
        _ = (shareIdChars.length : ℚ) := one_mul _
    have hfl : ⌊randoms i * (shareIdChars.length : ℚ)⌋ < (shareIdChars.length : ℤ) :=
      Int.floor_lt.mpr (by push_cast; exact hub)
    have hcpos : 0 < shareIdChars.length := by norm_num [shareIdChars]
    omega
  rw [List.getD_eq_getElem shareIdChars 'A' hidx]
  exact List.getElem_mem hidx

/-- Closed instance of generateShareId_spec at the constant-zero sample
stream and the default length 8. -/
theorem generateShareId_spec_witness :
    (generateShareId (fun _ => 0) 8).length = 8
    ∧ (∀ c ∈ generateShareId (fun _ => 0) 8, c ∈ shareIdChars)
    ∧ generateShareId_rng = RngSource.mathRandom :=
  generateShareId_spec (fun _ => 0) 8 (fun _ => ⟨le_refl 0, by norm_num⟩)

/-- calculateUsagePercentage (src/frontend/src/utils/api.js): 0 when total
is 0, otherwise min(used / total * 100, 100). The JavaScript numbers are
modelled as rationals. -/
def calculateUsagePercentage (used total : ℚ) : ℚ :=
  if total = 0 then 0 else min (used / total * 100) 100

/-- C9: for nonnegative used and total the result lies in the closed
interval [0, 100]; it is 0 when total = 0 (no division by zero), and it is
clamped to exactly 100 whenever used exceeds a nonzero total. -/
theorem calculateUsagePercentage_bounds (used total : ℚ)
    (hu : 0 ≤ used) (ht : 0 ≤ total) :
    0 ≤ calculateUsagePercentage used total
    ∧ calculateUsagePercentage used total ≤ 100
    ∧ (total = 0 → calculateUsagePercentage used total = 0)
    ∧ (total ≠ 0 → total < used → calculateUsagePercentage used total = 100) := by
  unfold calculateUsagePercentage
  by_cases h0 : total = 0
  · simp [h0]
  · have htpos : 0 < total := lt_of_le_of_ne ht (Ne.symm h0)
    refine ⟨?_, ?_, fun hcon => absurd hcon h0, ?_⟩
    · rw [if_neg h0]
      exact le_min (by positivity) (by norm_num)
    · rw [if_neg h0]
      exact min_le_right _ _
    · intro _ hlt
      rw [if_neg h0]
      have h100 : (100:ℚ) ≤ used / total * 100 := by
        have h1 : (1:ℚ) ≤ used / total := (one_le_div htpos).mpr (le_of_lt hlt)
        nlinarith
      exact min_eq_right h100

/-- Closed instance of calculateUsagePercentage_bounds: 150 bytes used of a
100-byte total clamps to 100; 50 of 200 stays within [0, 100]. -/
theorem calculateUsagePercentage_bounds_witness :
    calculateUsagePercentage 150 100 = 100
    ∧ 0 ≤ calculateUsagePercentage 50 200
    ∧ calculateUsagePercentage 50 200 ≤ 100 :=
  ⟨(calculateUsagePercentage_bounds 150 100 (by norm_num) (by norm_num)).2.2.2
      (by norm_num) (by norm_num),
   (calculateUsagePercentage_bounds 50 200 (by norm_num) (by norm_num)).1,
   (calculateUsagePercentage_bounds 50 200 (by norm_num) (by norm_num)).2.1⟩

/-- Final disposition of a client request after the response interceptor. -/
inductive RequestFinal
  | success
  | rejected
deriving DecidableEq

/-- The axios response interceptor of src/frontend/src/utils/api.js,
modelled per request: `statuses` lists the HTTP status codes the server
returns to the successive sends of this request (codes below 400 resolve
without entering the error handler; an empty list, a network failure, is
rejected). On a 401 with the per-request _retry flag unset, the flag is
set and, when a refresh token is stored and the refresh call succeeds, the
original request is resent once, counting one refresh-and-retry attempt; a
failed refresh rejects after its single attempt; a missing refresh token,
any other error status, and a 401 with _retry already set are rejected to
the caller. Returns the final disposition and the number of
refresh-and-retry attempts made for this request. -/
def responseChain (hasRefreshToken refreshOk : Bool) :
    Bool → List Nat → RequestFinal × Nat
  | _, [] => (RequestFinal.rejected, 0)
  | retryFlag, status :: rest =>
    if status < 400 then (RequestFinal.success, 0)
    else if status == 401 && !retryFlag then
      if hasRefreshToken then
        if refreshOk then
          let r := responseChain hasRefreshToken refreshOk true rest
          (r.1, r.2 + 1)
        else (RequestFinal.rejected, 1)
      else (RequestFinal.rejected, 0)
    else (RequestFinal.rejected, 0)

theorem responseChain_flagged_no_refresh (hasRT refreshOk : Bool)
    (statuses : List Nat) :
    (responseChain hasRT refreshOk true statuses).2 = 0 := by
  cases statuses with
  | nil => rfl
  | cons s rest =>
    unfold responseChain
    split_ifs <;> simp_all

/-- C10: the response interceptor attempts the refresh-token-and-retry
sequence at most once per request, guarded by the per-request _retry flag;
in particular a request that receives 401, is retried after a successful
refresh, and receives 401 again is rejected to the caller after exactly
one refresh, never retried a second time. -/
theorem refresh_retried_at_most_once (hasRT refreshOk : Bool) (statuses : List Nat) :
    (responseChain hasRT refreshOk false statuses).2 ≤ 1
    ∧ (∀ rest : List Nat,
        responseChain true true false (401 :: 401 :: rest) = (RequestFinal.rejected, 1)) := by
  constructor
  · cases statuses with
    | nil => simp [responseChain]
    | cons s rest =>
      unfold responseChain
      split_ifs <;> simp [responseChain_flagged_no_refresh]
  · intro rest
    have h2 : responseChain true true true (401 :: rest) = (RequestFinal.rejected, 0) := by
      unfold responseChain
      simp
    unfold responseChain
    simp [h2]

end CipherDrive
